import Mathlib

/-!
Shallow embedding of the parley style-tree builder
(src/parley/src/resolve/tree.rs) and proofs of the specified properties.

Strings are modelled as lists of characters; Rust byte offsets and byte
lengths (str::len) are modelled by the UTF-8 byte length of the list.
Operations that can panic in Rust (out-of-bounds indexing, Option::expect)
return an Option, with none standing for the panic.
-/

set_option maxRecDepth 10000

/-- UTF-8 byte size of a single character, following the standard encoding
boundaries used by Rust strings. -/
def charUtf8Size (c : Char) : Nat :=
  if c.toNat ≤ 0x7F then 1
  else if c.toNat ≤ 0x7FF then 2
  else if c.toNat ≤ 0xFFFF then 3
  else 4

/-- Byte length of a string modelled as a character list (Rust str::len). -/
def utf8Len (s : List Char) : Nat := (s.map charUtf8Size).sum

/-- Unicode White_Space property, the predicate behind Rust
char::is_whitespace as used by str::trim_start and str::trim_end. -/
def rustIsWhitespace (c : Char) : Bool :=
  let n := c.toNat
  (decide (0x09 ≤ n) && decide (n ≤ 0x0D)) || decide (n = 0x20) ||
  decide (n = 0x85) || decide (n = 0xA0) || decide (n = 0x1680) ||
  (decide (0x2000 ≤ n) && decide (n ≤ 0x200A)) || decide (n = 0x2028) ||
  decide (n = 0x2029) || decide (n = 0x202F) || decide (n = 0x205F) ||
  decide (n = 0x3000)

/-- Rust char::is_ascii_whitespace: space, horizontal tab, newline,
form feed, carriage return. -/
def isAsciiWhitespace (c : Char) : Bool :=
  let n := c.toNat
  decide (n = 0x20) || decide (n = 0x09) || decide (n = 0x0A) ||
  decide (n = 0x0C) || decide (n = 0x0D)

/-- Rust str::trim_start: drop leading Unicode whitespace. -/
def trimStart (s : List Char) : List Char := s.dropWhile rustIsWhitespace

/-- Rust str::trim_end: drop trailing Unicode whitespace. -/
def trimEnd (s : List Char) : List Char :=
  (s.reverse.dropWhile rustIsWhitespace).reverse

/-- The space-collapsing scan of push_uncomitted_text (tree.rs lines
128-147): each character is kept, except that an ASCII-whitespace
character becomes a space when the previous character was not
ASCII whitespace and is dropped when it was.  The boolean argument is the
running last_char_whitespace flag, initially false. -/
def collapseRuns : List Char → Bool → List Char
  | [], _ => []
  | c :: rest, prev =>
    if isAsciiWhitespace c then
      if prev then collapseRuns rest true
      else ' ' :: collapseRuns rest true
    else
      c :: collapseRuns rest false

/-- Modelled from the spec: ResolvedStyle (defined outside tree.rs and
treated there as an opaque cloneable value) as a total map from style
fields to values. -/
def ResolvedStyle : Type := Nat → Nat

/-- Modelled from the spec: ResolvedProperty, a single style field
override (one field identifier together with its new value). -/
structure ResolvedProperty where
  fieldId : Nat
  value : Nat

/-- Modelled from the spec: ResolvedStyle.apply merges one property delta
into a style, overriding exactly that field and leaving every other field
unchanged. -/
def ResolvedStyle.apply (s : ResolvedStyle) (p : ResolvedProperty) : ResolvedStyle :=
  fun f => if f = p.fieldId then p.value else s f

/-- Left fold of ResolvedStyle.apply over a property list, exactly the
for-loop of push_style_modification_span (tree.rs lines 186-189). -/
def applyProps (s : ResolvedStyle) (ps : List ResolvedProperty) : ResolvedStyle :=
  ps.foldl ResolvedStyle.apply s

/-- Rust core::ops::Range over usize; the field named stop corresponds to
the second Range field, whose Rust name is a reserved word in Lean. -/
structure StrRange where
  start : Nat
  stop : Nat

/-- WhiteSpaceCollapse from crate::style. -/
inductive WhiteSpaceCollapse where
  | Collapse
  | Preserve
deriving DecidableEq

/-- StyleTreeNodeData (tree.rs lines 35-39), with the StyleSpan and
TextSpan wrappers inlined into the constructors. -/
inductive StyleTreeNodeData where
  | Span (style : ResolvedStyle)
  | Text (text_range : StrRange)

/-- StyleTreeNode (tree.rs lines 14-18). -/
structure StyleTreeNode where
  parent : Option Nat
  data : StyleTreeNodeData

/-- StyleTreeNode::span constructor (tree.rs lines 21-26). -/
def StyleTreeNode.span (parent : Option Nat) (style : ResolvedStyle) : StyleTreeNode :=
  { parent := parent, data := StyleTreeNodeData.Span style }

/-- RangedStyle from the resolve module: one emitted styled range. -/
structure RangedStyle where
  style : ResolvedStyle
  range : StrRange

/-- TreeStyleBuilder state (tree.rs lines 62-70). -/
structure TreeStyleBuilder where
  tree : List StyleTreeNode
  flatted_styles : List RangedStyle
  white_space_collapse : WhiteSpaceCollapse
  text : List Char
  uncomitted_text : List Char
  current_span : Nat
  is_span_first : Bool

/-- usize::MAX on a 64-bit target. -/
def usizeMAX : Nat := 2 ^ 64 - 1

/-- Default for TreeStyleBuilder (tree.rs lines 83-95). -/
def defaultBuilder : TreeStyleBuilder :=
  { tree := []
    flatted_styles := []
    white_space_collapse := WhiteSpaceCollapse.Preserve
    text := []
    uncomitted_text := []
    current_span := usizeMAX
    is_span_first := false }

namespace TreeStyleBuilder

/-- current_style (tree.rs lines 73-80): index the tree at the cursor,
view the node as a span and clone its style; out-of-bounds indexing and
the as_span unwrap on a Text node both panic (none). -/
def current_style (b : TreeStyleBuilder) : Option ResolvedStyle :=
  match b.tree.get? b.current_span with
  | some node =>
    match node.data with
    | StyleTreeNodeData.Span style => some style
    | StyleTreeNodeData.Text _ => none
  | none => none

/-- begin (tree.rs lines 99-109): clear all buffers, reset the whitespace
mode to Preserve, seed the tree with a root span, point the cursor at it
and mark the span first. -/
def begin (b : TreeStyleBuilder) (root_style : ResolvedStyle) : TreeStyleBuilder :=
  let b := { b with
    tree := ([] : List StyleTreeNode)
    flatted_styles := ([] : List RangedStyle)
    white_space_collapse := WhiteSpaceCollapse.Preserve
    text := ([] : List Char)
    uncomitted_text := ([] : List Char) }
  { b with
    tree := b.tree ++ [StyleTreeNode.span none root_style]
    current_span := 0
    is_span_first := true }

/-- set_white_space_mode (tree.rs lines 111-113). -/
def set_white_space_mode (b : TreeStyleBuilder) (m : WhiteSpaceCollapse) : TreeStyleBuilder :=
  { b with white_space_collapse := m }

/-- The chunk-selection step of push_uncomitted_text (tree.rs lines
116-151): Preserve passes the uncommitted text through; Collapse trims
the start when the span is first, trims the end when the span is last,
and then collapses ASCII-whitespace runs. -/
def selectSpanText (mode : WhiteSpaceCollapse) (first last : Bool) (unc : List Char) : List Char :=
  match mode with
  | WhiteSpaceCollapse.Preserve => unc
  | WhiteSpaceCollapse.Collapse =>
    let t := if first then trimStart unc else unc
    let t := if last then trimEnd t else t
    collapseRuns t false

/-- push_uncomitted_text (tree.rs lines 115-167): select the chunk; when
it is empty only clear the span-first flag; otherwise emit a ranged style
at the current end of the output text, append the chunk to the output
text, clear the uncommitted buffer and clear the span-first flag. -/
def push_uncomitted_text (b : TreeStyleBuilder) (is_span_last : Bool) : Option TreeStyleBuilder :=
  let span_text := selectSpanText b.white_space_collapse b.is_span_first is_span_last b.uncomitted_text
  if utf8Len span_text = 0 then
    some { b with is_span_first := false }
  else
    match b.current_style with
    | none => none
    | some style =>
      some { b with
        flatted_styles := b.flatted_styles ++
          [{ style := style
             range := { start := utf8Len b.text, stop := utf8Len b.text + utf8Len span_text } }]
        text := b.text ++ span_text
        uncomitted_text := []
        is_span_first := false }

/-- current_text_len (tree.rs lines 169-171). -/
def current_text_len (b : TreeStyleBuilder) : Nat := utf8Len b.text

/-- push_style_span (tree.rs lines 173-180). -/
def push_style_span (b : TreeStyleBuilder) (style : ResolvedStyle) : Option TreeStyleBuilder :=
  match b.push_uncomitted_text false with
  | none => none
  | some b =>
    some { b with
      tree := b.tree ++ [StyleTreeNode.span (some b.current_span) style]
      current_span := b.tree.length
      is_span_first := true }

/-- push_style_modification_span (tree.rs lines 182-196): resolve the new
style from the current one before flushing, flush the pending text under
the pre-modification scope, then append the derived child scope and move
the cursor to it; the span-first flag is not set here. -/
def push_style_modification_span (b : TreeStyleBuilder) (properties : List ResolvedProperty) :
    Option TreeStyleBuilder :=
  match b.current_style with
  | none => none
  | some s =>
    let new_style := applyProps s properties
    match b.push_uncomitted_text false with
    | none => none
    | some b =>
      some { b with
        tree := b.tree ++ [StyleTreeNode.span (some b.current_span) new_style]
        current_span := b.tree.length }

/-- pop_style_span (tree.rs lines 198-204): terminal flush, then move the
cursor to the parent; indexing out of bounds or a missing parent (the
Popped root style expect) panics. -/
def pop_style_span (b : TreeStyleBuilder) : Option TreeStyleBuilder :=
  match b.push_uncomitted_text true with
  | none => none
  | some b =>
    match b.tree.get? b.current_span with
    | none => none
    | some node =>
      match node.parent with
      | none => none
      | some p => some { b with current_span := p }

/-- push_text (tree.rs lines 207-211). -/
def push_text (b : TreeStyleBuilder) (t : List Char) : TreeStyleBuilder :=
  if 0 < utf8Len t then { b with uncomitted_text := b.uncomitted_text ++ t } else b

/-- The pop-to-root loop of finish (tree.rs lines 215-217), with explicit
fuel; the loop condition indexes the tree at the cursor (a panic when out
of bounds) and stops when the cursor node has no parent.  Exhausted fuel
is also none; for every builder reachable through the public operations
the parent links strictly decrease, so tree.length fuel never runs out. -/
def finishLoop : Nat → TreeStyleBuilder → Option TreeStyleBuilder
  | fuel, b =>
    match b.tree.get? b.current_span with
    | none => none
    | some node =>
      match node.parent with
      | none => some b
      | some _ =>
        match fuel with
        | 0 => none
        | fuel + 1 =>
          match b.pop_style_span with
          | none => none
          | some b => finishLoop fuel b

/-- finish (tree.rs lines 214-236): pop back to the root, perform one
final terminal flush, and return the emitted ranged styles together with
the concatenated output text. -/
def finish (b : TreeStyleBuilder) : Option (List RangedStyle × List Char) :=
  match finishLoop b.tree.length b with
  | none => none
  | some b =>
    match b.push_uncomitted_text true with
    | none => none
    | some b => some (b.flatted_styles, b.text)

end TreeStyleBuilder

/-- One public builder operation between begin and finish. -/
inductive BuilderOp where
  | SetWhiteSpaceMode (m : WhiteSpaceCollapse)
  | PushStyleSpan (style : ResolvedStyle)
  | PushStyleModificationSpan (properties : List ResolvedProperty)
  | PopStyleSpan
  | PushText (t : List Char)

/-- Apply one operation to the builder. -/
def applyOp (b : TreeStyleBuilder) : BuilderOp → Option TreeStyleBuilder
  | BuilderOp.SetWhiteSpaceMode m => some (b.set_white_space_mode m)
  | BuilderOp.PushStyleSpan s => b.push_style_span s
  | BuilderOp.PushStyleModificationSpan ps => b.push_style_modification_span ps
  | BuilderOp.PopStyleSpan => b.pop_style_span
  | BuilderOp.PushText t => some (b.push_text t)

/-- Run a list of operations left to right; none when any panics. -/
def runOps (b : TreeStyleBuilder) : List BuilderOp → Option TreeStyleBuilder
  | [] => some b
  | op :: ops =>
    match applyOp b op with
    | none => none
    | some b => runOps b ops

/-- Concatenation, in push order, of all text chunks pushed by a list of
operations. -/
def pushedText : List BuilderOp → List Char
  | [] => []
  | BuilderOp.PushText t :: ops => t ++ pushedText ops
  | _ :: ops => pushedText ops

/-- The full collapse transform: the Collapse branch of the flush with
both the span-first and span-last flags set, as applied to a chunk that
is both the first and the last text of its scope. -/
def collapseTransform (s : List Char) : List Char :=
  TreeStyleBuilder.selectSpanText WhiteSpaceCollapse.Collapse true true s

/-- Emitted ranges chain from offset a to offset m: each range starts
where the previous one stopped, is nonempty, and the last one stops at m. -/
def chainFromTo : Nat → Nat → List RangedStyle → Prop
  | a, m, [] => a = m
  | a, m, r :: rs => r.range.start = a ∧ a < r.range.stop ∧ chainFromTo r.range.stop m rs

/-- Normal form for the collapsing scan: every ASCII-whitespace character
is a plain space and never follows another ASCII-whitespace character
(the boolean says whether the previous character was ASCII whitespace). -/
def noRun : Bool → List Char → Bool
  | _, [] => true
  | prev, c :: rest =>
    if isAsciiWhitespace c then !prev && (c == ' ') && noRun true rest
    else noRun false rest

/-- A fixed concrete root style for the concrete test inputs. -/
def S0 : ResolvedStyle := fun _ => 0

/-- Concrete operation list for the coverage witness. -/
def c1ops : List BuilderOp :=
  [BuilderOp.PushText "He".toList, BuilderOp.PushStyleSpan S0,
   BuilderOp.PushText "y".toList, BuilderOp.PopStyleSpan]

/-- Builder reached by the coverage witness operations. -/
def c1b : TreeStyleBuilder := (runOps (defaultBuilder.begin S0) c1ops).getD defaultBuilder

/-- Finish output of the coverage witness run. -/
def c1fin : List RangedStyle × List Char := c1b.finish.getD ([], [])

/-- Property list for the concrete modification-span scenario. -/
def c3props : List ResolvedProperty := [{ fieldId := 1, value := 42 }]

/-- The scenario of claim C3: Collapse mode, a modification span, then
two leading spaces before an x. -/
def c3run : Option (List RangedStyle × List Char) :=
  match ((defaultBuilder.begin S0).set_white_space_mode
      WhiteSpaceCollapse.Collapse).push_style_modification_span c3props with
  | none => none
  | some b => (b.push_text "  x".toList).finish

/-- Concrete operation list for the Preserve-identity witness. -/
def c5ops : List BuilderOp := [BuilderOp.PushText "ab".toList]

/-- Builder reached by the Preserve-identity witness operations. -/
def c5b : TreeStyleBuilder := (runOps (defaultBuilder.begin S0) c5ops).getD defaultBuilder

/-- Finish output of the Preserve-identity witness run. -/
def c5fin : List RangedStyle × List Char := c5b.finish.getD ([], [])

/-- Concrete builder for the modification-span witness. -/
def c7b : TreeStyleBuilder := defaultBuilder.begin S0

/-- Concrete property deltas for the modification-span witness: two
deltas on the same field and one on another field. -/
def c7ps : List ResolvedProperty :=
  [{ fieldId := 1, value := 42 }, { fieldId := 1, value := 7 }, { fieldId := 2, value := 9 }]

/-- Builder after the modification span of the witness. -/
def c7b' : TreeStyleBuilder := (c7b.push_style_modification_span c7ps).getD defaultBuilder

/-- Concrete builder for the empty-collapse-flush witness: Collapse mode,
span-first true, whitespace-only uncommitted text. -/
def c9b : TreeStyleBuilder :=
  ((defaultBuilder.begin S0).set_white_space_mode WhiteSpaceCollapse.Collapse).push_text " ".toList

/-! Helper lemmas. -/

theorem charUtf8Size_pos (c : Char) : 0 < charUtf8Size c := by
  unfold charUtf8Size
  split_ifs <;> decide

theorem utf8Len_nil : utf8Len [] = 0 := rfl

theorem utf8Len_cons (c : Char) (s : List Char) :
    utf8Len (c :: s) = charUtf8Size c + utf8Len s := rfl

theorem utf8Len_append (s t : List Char) :
    utf8Len (s ++ t) = utf8Len s + utf8Len t := by
  unfold utf8Len
  rw [List.map_append, List.sum_append]

theorem utf8Len_eq_zero_iff (s : List Char) : utf8Len s = 0 ↔ s = [] := by
  cases s with
  | nil => simp [utf8Len]
  | cons c cs =>
    simp only [utf8Len_cons]
    constructor
    · intro h
      have := charUtf8Size_pos c
      omega
    · intro h
      cases h

/-- The flush never changes the tree, the cursor or the whitespace mode. -/
theorem push_uncomitted_text_frame (b b' : TreeStyleBuilder) (is_span_last : Bool)
    (h : b.push_uncomitted_text is_span_last = some b') :
    b'.tree = b.tree ∧ b'.current_span = b.current_span ∧
      b'.white_space_collapse = b.white_space_collapse := by
  simp only [TreeStyleBuilder.push_uncomitted_text] at h
  split at h
  · cases h
    exact ⟨rfl, rfl, rfl⟩
  · split at h
    · cases h
    · cases h
      exact ⟨rfl, rfl, rfl⟩

/-- Every range present after a flush was either present before it or
carries the style of the scope current at flush time. -/
theorem push_uncomitted_text_flatted (b b' : TreeStyleBuilder) (is_span_last : Bool)
    (h : b.push_uncomitted_text is_span_last = some b') :
    ∀ r ∈ b'.flatted_styles, r ∈ b.flatted_styles ∨ some r.style = b.current_style := by
  simp only [TreeStyleBuilder.push_uncomitted_text] at h
  split at h
  · cases h
    intro r hr
    exact Or.inl hr
  · rename_i hne
    split at h
    · cases h
    · rename_i style hcs
      cases h
      intro r hr
      simp only [List.mem_append, List.mem_singleton] at hr
      cases hr with
      | inl hr => exact Or.inl hr
      | inr hr =>
        right
        rw [hr, hcs]

/-! Claim theorems: protocol errors, reset, concrete scenarios. -/

/-- C4: calling pop_style_span while the current scope is the root (the
cursor node has no parent) fails fatally; it never silently succeeds or
clamps the cursor. -/
theorem C4_pop_root_fails (b : TreeStyleBuilder) (node : StyleTreeNode)
    (h1 : b.tree.get? b.current_span = some node) (h2 : node.parent = none) :
    b.pop_style_span = none := by
  simp only [TreeStyleBuilder.pop_style_span]
  cases hf : b.push_uncomitted_text true with
  | none => rfl
  | some b1 =>
    obtain ⟨ht, hc, _⟩ := push_uncomitted_text_frame b b1 true hf
    simp only [ht, hc, h1, h2]

/-- Witness for C4 at a concrete input: popping right after begin, with
only the root scope open, panics. -/
theorem C4_pop_root_fails_witness : (defaultBuilder.begin S0).pop_style_span = none :=
  C4_pop_root_fails (defaultBuilder.begin S0) (StyleTreeNode.span none S0) rfl rfl

/-- C6: begin resets all builder state regardless of prior state: tree,
emitted styles, output text and uncommitted text are cleared, the
whitespace mode returns to Preserve, the tree is seeded with a single
root scope holding the root style, the cursor points at it and the
span-first flag is set. -/
theorem C6_begin_resets (b : TreeStyleBuilder) (root_style : ResolvedStyle) :
    b.begin root_style =
      { tree := [StyleTreeNode.span none root_style]
        flatted_styles := []
        white_space_collapse := WhiteSpaceCollapse.Preserve
        text := []
        uncomitted_text := []
        current_span := 0
        is_span_first := true } := rfl

/-- C9: in Collapse mode, when the selected chunk of a flush is empty
while the uncommitted buffer is not, the flush leaves every builder field
unchanged except the span-first flag, which it clears; in particular the
uncommitted text is kept for the next flush. -/
theorem C9_empty_flush_frame (b : TreeStyleBuilder) (is_span_last : Bool)
    (hmode : b.white_space_collapse = WhiteSpaceCollapse.Collapse)
    (hempty : TreeStyleBuilder.selectSpanText WhiteSpaceCollapse.Collapse b.is_span_first
      is_span_last b.uncomitted_text = [])
    (_hne : b.uncomitted_text ≠ []) :
    b.push_uncomitted_text is_span_last = some { b with is_span_first := false } := by
  simp only [TreeStyleBuilder.push_uncomitted_text, hmode, hempty, utf8Len_nil, if_pos]

/-- Witness for C9 at a concrete input: Collapse mode, span-first true,
uncommitted text a single space; the flush keeps the space in the buffer
and only clears the span-first flag. -/
theorem C9_empty_flush_frame_witness :
    c9b.push_uncomitted_text false = some { c9b with is_span_first := false } :=
  C9_empty_flush_frame c9b false rfl rfl (by decide)

/-- C10 counterexample: the claim says every one of push_style_span,
push_style_modification_span, pop_style_span and finish panics on a
default-constructed builder, but push_style_span succeeds there: its
flush sees an empty chunk and returns before any tree indexing. -/
theorem C10_default_push_span_no_panic :
    (defaultBuilder.push_style_span S0).isSome = true := rfl

/-- C10 amended: on a default-constructed builder the cursor is usize MAX
and the tree is empty; push_style_modification_span, pop_style_span and
finish index the tree out of bounds and panic, while push_style_span
succeeds (its flush early-returns on the empty chunk) and leaves a node
whose parent link dangles at usize MAX. -/
theorem C10_default_builder_behavior :
    defaultBuilder.current_span = usizeMAX ∧
    defaultBuilder.tree = [] ∧
    (∀ ps, defaultBuilder.push_style_modification_span ps = none) ∧
    defaultBuilder.pop_style_span = none ∧
    defaultBuilder.finish = none ∧
    defaultBuilder.push_style_span S0 =
      some { defaultBuilder with
        tree := [StyleTreeNode.span (some usizeMAX) S0]
        current_span := 0
        is_span_first := true } :=
  ⟨rfl, rfl, fun _ => rfl, rfl, rfl, rfl⟩

/-- C2 counterexample: with the calls in the stated order the
set_white_space_mode call precedes begin, and begin resets the mode to
Preserve, so the text comes out unchanged rather than collapsed. -/
theorem C2_scenario_as_stated_false :
    ((((defaultBuilder.set_white_space_mode WhiteSpaceCollapse.Collapse).begin S0).push_text
        "   Hi   there  ".toList).finish).map Prod.snd = some "   Hi   there  ".toList ∧
      "   Hi   there  ".toList ≠ "Hi there".toList :=
  ⟨rfl, by decide⟩

/-- C2 amended: when Collapse mode is selected after begin (begin resets
the mode to Preserve), pushing the padded text and finishing produces the
text Hi there and exactly one range from 0 to 8 carrying the root style. -/
theorem C2_scenario_amended :
    ((((defaultBuilder.begin S0).set_white_space_mode WhiteSpaceCollapse.Collapse).push_text
        "   Hi   there  ".toList).finish) =
      some ([{ style := S0, range := { start := 0, stop := 8 } }], "Hi there".toList) := rfl

/-- C3 counterexample: the stated sequence does not yield the text x; the
internal empty flush of push_style_modification_span clears the
span-first flag, so the later flush only collapses the two leading
spaces to one space instead of trimming them. -/
theorem C3_scenario_as_stated_false :
    c3run.map Prod.snd = some " x".toList ∧ " x".toList ≠ "x".toList :=
  ⟨rfl, by decide⟩

/-- C3 amended: in Collapse mode the sequence begin, modification span,
push of two spaces and an x, finish yields the text of a space and an x:
push_style_modification_span does not itself reset the span-first flag,
but its internal empty flush clears it, so the leading whitespace is
collapsed to a single space, not stripped, and the emitted range carries
the modified style. -/
theorem C3_scenario_amended :
    c3run = some ([{ style := applyProps S0 c3props, range := { start := 0, stop := 2 } }],
      " x".toList) := rfl

/-- Pointwise value of a left fold of property applications: the field
takes the value of the last delta naming it, and keeps its base value
when no delta names it. -/
theorem applyProps_eval (s : ResolvedStyle) (ps : List ResolvedProperty) (f : Nat) :
    applyProps s ps f =
      match ps.reverse.find? (fun p => p.fieldId == f) with
      | some p => p.value
      | none => s f := by
  induction ps generalizing s with
  | nil => rfl
  | cons p ps ih =>
    show applyProps (ResolvedStyle.apply s p) ps f = _
    rw [ih, List.reverse_cons, List.find?_append]
    cases h : ps.reverse.find? (fun q => q.fieldId == f) with
    | some q => rfl
    | none =>
      by_cases hf : p.fieldId = f
      · simp [ResolvedStyle.apply, List.find?, hf, Option.orElse]
      · have hb : (p.fieldId == f) = false := by
          simp [hf]
        have hf' : f ≠ p.fieldId := fun he => hf he.symm
        simp [ResolvedStyle.apply, List.find?, hb, hf', Option.orElse]

/-- C7: push_style_modification_span opens a new child scope of the
current one whose style is the current style with each delta applied in
order, where the last delta naming a field wins and untouched fields
keep their base value; any range flushed at this boundary carries the
pre-modification style. -/
theorem C7_modification_span_style (b b' : TreeStyleBuilder) (ps : List ResolvedProperty)
    (h : b.push_style_modification_span ps = some b') :
    ∃ s, b.current_style = some s ∧
      b'.tree = b.tree ++ [StyleTreeNode.span (some b.current_span) (applyProps s ps)] ∧
      b'.current_span = b.tree.length ∧
      (∀ f, applyProps s ps f =
        match ps.reverse.find? (fun p => p.fieldId == f) with
        | some p => p.value
        | none => s f) ∧
      (∀ r ∈ b'.flatted_styles, r ∈ b.flatted_styles ∨ r.style = s) := by
  simp only [TreeStyleBuilder.push_style_modification_span] at h
  split at h
  · cases h
  · rename_i s hcs
    split at h
    · cases h
    · rename_i b1 hf
      cases h
      obtain ⟨ht, hc, _⟩ := push_uncomitted_text_frame b b1 false hf
      refine ⟨s, hcs, ?_, ?_, fun f => applyProps_eval s ps f, ?_⟩
      · simp [ht, hc]
      · simp [ht]
      · intro r hr
        cases push_uncomitted_text_flatted b b1 false hf r hr with
        | inl hm => exact Or.inl hm
        | inr he =>
          right
          rw [hcs] at he
          exact Option.some.inj he

/-- Witness for C7 at a concrete input: a modification span right after
begin, with two deltas on one field and one on another. -/
theorem C7_modification_span_style_witness :
    ∃ s, c7b.current_style = some s ∧
      c7b'.tree = c7b.tree ++ [StyleTreeNode.span (some c7b.current_span) (applyProps s c7ps)] ∧
      c7b'.current_span = c7b.tree.length ∧
      (∀ f, applyProps s c7ps f =
        match c7ps.reverse.find? (fun p => p.fieldId == f) with
        | some p => p.value
        | none => s f) ∧
      (∀ r ∈ c7b'.flatted_styles, r ∈ c7b.flatted_styles ∨ r.style = s) :=
  C7_modification_span_style c7b c7b' c7ps rfl

/-! Lemmas about the collapse transform. -/

theorem asciiWs_rustWs (c : Char) (h : isAsciiWhitespace c = true) :
    rustIsWhitespace c = true := by
  unfold isAsciiWhitespace at h
  unfold rustIsWhitespace
  simp only [Bool.or_eq_true, Bool.and_eq_true, decide_eq_true_eq] at h ⊢
  omega

theorem not_rustWs_not_asciiWs (c : Char) (h : rustIsWhitespace c = false) :
    isAsciiWhitespace c = false := by
  cases ha : isAsciiWhitespace c with
  | false => rfl
  | true =>
    rw [asciiWs_rustWs c ha] at h
    cases h

theorem asciiWs_space : isAsciiWhitespace ' ' = true := rfl

theorem dropWhile_head_false {α : Type} (p : α → Bool) :
    ∀ (l : List α) (c : α) (v : List α), l.dropWhile p = c :: v → p c = false := by
  intro l
  induction l with
  | nil =>
    intro c v h
    cases h
  | cons a l ih =>
    intro c v h
    rw [List.dropWhile_cons] at h
    split at h
    · exact ih c v h
    · rename_i hpa
      injection h with h1 _
      subst h1
      cases hv : p a with
      | false => rfl
      | true => exact absurd hv hpa

theorem dropWhile_cons_false {α : Type} (p : α → Bool) (c : α) (l : List α) (hc : p c = false) :
    (c :: l).dropWhile p = c :: l := by
  rw [List.dropWhile_cons, hc]
  simp

theorem dropWhile_append_last {α : Type} (p : α → Bool) (c : α) (hc : p c = false) :
    ∀ l : List α, (l ++ [c]).dropWhile p = l.dropWhile p ++ [c] := by
  intro l
  induction l with
  | nil => simp [dropWhile_cons_false p c [] hc]
  | cons a l ih =>
    by_cases hpa : p a = true
    · simp only [List.cons_append, List.dropWhile_cons, hpa, if_true, ih]
    · have hpa' : p a = false := by
        cases hv : p a with
        | false => rfl
        | true => exact absurd hv hpa
      simp only [List.cons_append, List.dropWhile_cons, hpa', Bool.false_eq_true, if_false]

theorem collapseRuns_append_last (c : Char) (hc : isAsciiWhitespace c = false) :
    ∀ (t : List Char) (prev : Bool),
      collapseRuns (t ++ [c]) prev = collapseRuns t prev ++ [c] := by
  intro t
  induction t with
  | nil =>
    intro prev
    simp [collapseRuns, hc]
  | cons a t ih =>
    intro prev
    by_cases ha : isAsciiWhitespace a = true
    · cases prev <;> simp [collapseRuns, ha, ih]
    · simp [collapseRuns, ha, ih]

theorem noRun_collapseRuns : ∀ (t : List Char) (prev : Bool),
    noRun prev (collapseRuns t prev) = true := by
  intro t
  induction t with
  | nil =>
    intro prev
    rfl
  | cons c t ih =>
    intro prev
    by_cases hc : isAsciiWhitespace c = true
    · cases prev <;> simp [collapseRuns, hc, noRun, asciiWs_space, ih]
    · simp [collapseRuns, hc, noRun, ih]

theorem collapseRuns_of_noRun : ∀ (u : List Char) (prev : Bool),
    noRun prev u = true → collapseRuns u prev = u := by
  intro u
  induction u with
  | nil =>
    intro prev _
    rfl
  | cons c u ih =>
    intro prev h
    by_cases hc : isAsciiWhitespace c = true
    · simp only [noRun, hc, if_true, Bool.and_eq_true, Bool.not_eq_true'] at h
      obtain ⟨⟨hp, hceq⟩, hrest⟩ := h
      subst hp
      simp only [collapseRuns, hc, if_true, Bool.false_eq_true, if_false]
      rw [ih true hrest]
      have : c = ' ' := by
        exact eq_of_beq hceq
      rw [this]
    · simp only [noRun, hc, Bool.false_eq_true, if_false] at h
      simp only [collapseRuns, hc, Bool.false_eq_true, if_false]
      rw [ih false h]

/-- C8: the collapse transform (trim the ends, then collapse every
ASCII-whitespace run to one space) is idempotent: applied to its own
output it changes nothing. -/
theorem C8_collapse_idempotent (s : List Char) :
    collapseTransform (collapseTransform s) = collapseTransform s := by
  have hct : ∀ t : List Char, collapseTransform t = collapseRuns (trimEnd (trimStart t)) false :=
    fun _ => rfl
  rw [hct s, hct]
  cases ha : trimStart s with
  | nil => rfl
  | cons c0 w =>
    have hc0 : rustIsWhitespace c0 = false := dropWhile_head_false _ s c0 w ha
    have hc0a : isAsciiWhitespace c0 = false := not_rustWs_not_asciiWs c0 hc0
    have hte : trimEnd (c0 :: w) = c0 :: (w.reverse.dropWhile rustIsWhitespace).reverse := by
      unfold trimEnd
      rw [List.reverse_cons, dropWhile_append_last rustIsWhitespace c0 hc0 w.reverse,
        List.reverse_append]
      simp
    rw [hte]
    cases hq : w.reverse.dropWhile rustIsWhitespace with
    | nil =>
      simp only [List.reverse_nil]
      have h1 : collapseRuns [c0] false = [c0] := by
        simp [collapseRuns, hc0a]
      have h2 : trimStart [c0] = [c0] := dropWhile_cons_false _ _ _ hc0
      have h3 : trimEnd [c0] = [c0] := by
        unfold trimEnd
        simp [dropWhile_cons_false _ _ ([] : List Char) hc0]
      rw [h1, h2, h3, h1]
    | cons d v =>
      have hd : rustIsWhitespace d = false := dropWhile_head_false _ w.reverse d v hq
      have hda : isAsciiWhitespace d = false := not_rustWs_not_asciiWs d hd
      simp only [List.reverse_cons]
      have hu1 : collapseRuns (c0 :: (v.reverse ++ [d])) false
          = c0 :: (collapseRuns v.reverse false ++ [d]) := by
        simp only [collapseRuns, hc0a, Bool.false_eq_true, if_false]
        rw [collapseRuns_append_last d hda v.reverse false]
      have hnu : noRun false (collapseRuns (c0 :: (v.reverse ++ [d])) false) = true :=
        noRun_collapseRuns _ false
      rw [hu1] at hnu ⊢
      have h2 : trimStart (c0 :: (collapseRuns v.reverse false ++ [d]))
          = c0 :: (collapseRuns v.reverse false ++ [d]) :=
        dropWhile_cons_false _ _ _ hc0
      have h3 : trimEnd (c0 :: (collapseRuns v.reverse false ++ [d]))
          = c0 :: (collapseRuns v.reverse false ++ [d]) := by
        unfold trimEnd
        rw [List.reverse_cons, List.reverse_append]
        simp only [List.reverse_cons, List.reverse_nil, List.nil_append, List.cons_append]
        rw [dropWhile_cons_false _ _ _ hd]
        simp
      rw [h2, h3]
      exact collapseRuns_of_noRun _ false hnu

/-! Lemmas for the Preserve-mode identity. -/

/-- In Preserve mode a successful flush keeps the concatenation of output
and uncommitted text, leaves the uncommitted buffer empty and keeps the
mode. -/
theorem push_uncomitted_text_preserve (b b' : TreeStyleBuilder) (is_span_last : Bool)
    (hmode : b.white_space_collapse = WhiteSpaceCollapse.Preserve)
    (h : b.push_uncomitted_text is_span_last = some b') :
    b'.text ++ b'.uncomitted_text = b.text ++ b.uncomitted_text ∧
      b'.uncomitted_text = [] ∧
      b'.white_space_collapse = WhiteSpaceCollapse.Preserve := by
  simp only [TreeStyleBuilder.push_uncomitted_text, TreeStyleBuilder.selectSpanText, hmode] at h
  split at h
  · rename_i hz
    cases h
    exact ⟨rfl, (utf8Len_eq_zero_iff _).mp hz, rfl⟩
  · split at h
    · cases h
    · cases h
      refine ⟨by simp, rfl, rfl⟩

/-- push_style_span in Preserve mode keeps the text concatenation and the
mode. -/
theorem push_style_span_preserve (b b' : TreeStyleBuilder) (s : ResolvedStyle)
    (hmode : b.white_space_collapse = WhiteSpaceCollapse.Preserve)
    (h : b.push_style_span s = some b') :
    b'.text ++ b'.uncomitted_text = b.text ++ b.uncomitted_text ∧
      b'.white_space_collapse = WhiteSpaceCollapse.Preserve := by
  simp only [TreeStyleBuilder.push_style_span] at h
  split at h
  · cases h
  · rename_i b1 hf
    cases h
    obtain ⟨h1, _, h3⟩ := push_uncomitted_text_preserve b b1 false hmode hf
    exact ⟨h1, h3⟩

/-- push_style_modification_span in Preserve mode keeps the text
concatenation and the mode. -/
theorem push_style_modification_span_preserve (b b' : TreeStyleBuilder)
    (ps : List ResolvedProperty)
    (hmode : b.white_space_collapse = WhiteSpaceCollapse.Preserve)
    (h : b.push_style_modification_span ps = some b') :
    b'.text ++ b'.uncomitted_text = b.text ++ b.uncomitted_text ∧
      b'.white_space_collapse = WhiteSpaceCollapse.Preserve := by
  simp only [TreeStyleBuilder.push_style_modification_span] at h
  split at h
  · cases h
  · split at h
    · cases h
    · rename_i b1 hf
      cases h
      obtain ⟨h1, _, h3⟩ := push_uncomitted_text_preserve b b1 false hmode hf
      exact ⟨h1, h3⟩

/-- pop_style_span in Preserve mode keeps the text concatenation and the
mode. -/
theorem pop_style_span_preserve (b b' : TreeStyleBuilder)
    (hmode : b.white_space_collapse = WhiteSpaceCollapse.Preserve)
    (h : b.pop_style_span = some b') :
    b'.text ++ b'.uncomitted_text = b.text ++ b.uncomitted_text ∧
      b'.white_space_collapse = WhiteSpaceCollapse.Preserve := by
  simp only [TreeStyleBuilder.pop_style_span] at h
  split at h
  · cases h
  · rename_i b1 hf
    split at h
    · cases h
    · split at h
      · cases h
      · cases h
        obtain ⟨h1, _, h3⟩ := push_uncomitted_text_preserve b b1 true hmode hf
        exact ⟨h1, h3⟩

/-- Running operations whose whitespace-mode changes all select Preserve,
from a Preserve-mode builder, keeps Preserve mode and appends exactly the
pushed chunks to the text concatenation. -/
theorem runOps_preserve : ∀ (ops : List BuilderOp) (b b' : TreeStyleBuilder),
    (∀ m, BuilderOp.SetWhiteSpaceMode m ∈ ops → m = WhiteSpaceCollapse.Preserve) →
    b.white_space_collapse = WhiteSpaceCollapse.Preserve →
    runOps b ops = some b' →
    b'.white_space_collapse = WhiteSpaceCollapse.Preserve ∧
      b'.text ++ b'.uncomitted_text = (b.text ++ b.uncomitted_text) ++ pushedText ops := by
  intro ops
  induction ops with
  | nil =>
    intro b b' _ hmode h
    cases h
    simp [pushedText, hmode]
  | cons op ops ih =>
    intro b b' hops hmode h
    simp only [runOps] at h
    cases happ : applyOp b op with
    | none => rw [happ] at h; cases h
    | some b1 =>
      rw [happ] at h
      have hops' : ∀ m, BuilderOp.SetWhiteSpaceMode m ∈ ops → m = WhiteSpaceCollapse.Preserve :=
        fun m hm => hops m (List.mem_cons_of_mem op hm)
      cases op with
      | SetWhiteSpaceMode m =>
        have hm : m = WhiteSpaceCollapse.Preserve := hops m (List.mem_cons_self _ _)
        subst hm
        simp only [applyOp, TreeStyleBuilder.set_white_space_mode] at happ
        cases happ
        obtain ⟨hA, hB⟩ := ih _ b' hops' rfl h
        refine ⟨hA, ?_⟩
        rw [hB]
        rfl
      | PushStyleSpan s =>
        simp only [applyOp] at happ
        obtain ⟨h1, h2⟩ := push_style_span_preserve b b1 s hmode happ
        obtain ⟨hA, hB⟩ := ih b1 b' hops' h2 h
        refine ⟨hA, ?_⟩
        rw [hB, h1]
        rfl
      | PushStyleModificationSpan ps =>
        simp only [applyOp] at happ
        obtain ⟨h1, h2⟩ := push_style_modification_span_preserve b b1 ps hmode happ
        obtain ⟨hA, hB⟩ := ih b1 b' hops' h2 h
        refine ⟨hA, ?_⟩
        rw [hB, h1]
        rfl
      | PopStyleSpan =>
        simp only [applyOp] at happ
        obtain ⟨h1, h2⟩ := pop_style_span_preserve b b1 hmode happ
        obtain ⟨hA, hB⟩ := ih b1 b' hops' h2 h
        refine ⟨hA, ?_⟩
        rw [hB, h1]
        rfl
      | PushText t =>
        simp only [applyOp, TreeStyleBuilder.push_text] at happ
        split at happ
        · cases happ
          obtain ⟨hA, hB⟩ :=
            ih { b with uncomitted_text := b.uncomitted_text ++ t } b' hops' hmode h
          refine ⟨hA, ?_⟩
          rw [hB]
          simp [pushedText]
        · rename_i hz
          have ht : t = [] := by
            have hz0 : utf8Len t = 0 := by omega
            exact (utf8Len_eq_zero_iff _).mp hz0
          cases happ
          obtain ⟨hA, hB⟩ := ih b b' hops' hmode h
          refine ⟨hA, ?_⟩
          rw [hB]
          simp [pushedText, ht]

/-- The finish pop-loop in Preserve mode keeps the text concatenation and
the mode. -/
theorem finishLoop_preserve : ∀ (fuel : Nat) (b b' : TreeStyleBuilder),
    b.white_space_collapse = WhiteSpaceCollapse.Preserve →
    TreeStyleBuilder.finishLoop fuel b = some b' →
    b'.text ++ b'.uncomitted_text = b.text ++ b.uncomitted_text ∧
      b'.white_space_collapse = WhiteSpaceCollapse.Preserve := by
  intro fuel
  induction fuel with
  | zero =>
    intro b b' hmode h
    simp only [TreeStyleBuilder.finishLoop] at h
    split at h
    · cases h
    · split at h
      · cases h
        exact ⟨rfl, hmode⟩
      · cases h
  | succ fuel ih =>
    intro b b' hmode h
    simp only [TreeStyleBuilder.finishLoop] at h
    split at h
    · cases h
    · split at h
      · cases h
        exact ⟨rfl, hmode⟩
      · split at h
        · cases h
        · rename_i b1 hpop
          obtain ⟨h1, h2⟩ := pop_style_span_preserve b b1 hmode hpop
          obtain ⟨hA, hB⟩ := ih b1 b' h2 h
          exact ⟨by rw [hA, h1], hB⟩

/-- C5: for every build pass whose whitespace mode is Preserve at every
flush (begin defaults to Preserve and no operation switches to Collapse),
the text returned by finish is the concatenation, in push order, of all
chunks passed to push_text since begin. -/
theorem C5_preserve_mode_identity (s0 : ResolvedStyle) (b0 : TreeStyleBuilder)
    (ops : List BuilderOp) (b : TreeStyleBuilder) (styles : List RangedStyle) (text : List Char)
    (hops : ∀ m, BuilderOp.SetWhiteSpaceMode m ∈ ops → m = WhiteSpaceCollapse.Preserve)
    (hrun : runOps (b0.begin s0) ops = some b)
    (hfin : b.finish = some (styles, text)) :
    text = pushedText ops := by
  obtain ⟨hmode, hconcat⟩ := runOps_preserve ops (b0.begin s0) b hops rfl hrun
  simp only [TreeStyleBuilder.finish] at hfin
  split at hfin
  · cases hfin
  · rename_i b1 hloop
    split at hfin
    · cases hfin
    · rename_i b2 hflush
      cases hfin
      obtain ⟨hl1, hl2⟩ := finishLoop_preserve _ b b1 hmode hloop
      obtain ⟨hf1, hf2, _⟩ := push_uncomitted_text_preserve b1 b2 true hl2 hflush
      have e1 : b2.text ++ b2.uncomitted_text = pushedText ops := by
        rw [hf1, hl1, hconcat]
        rfl
      rw [hf2, List.append_nil] at e1
      exact e1

/-- Witness for C5 at a concrete input: a single pushed chunk in Preserve
mode comes back verbatim from finish. -/
theorem C5_preserve_mode_identity_witness : c5fin.2 = pushedText c5ops :=
  C5_preserve_mode_identity S0 defaultBuilder c5ops c5b c5fin.1 c5fin.2
    (by
      intro m hm
      cases hm with
      | tail _ hm => cases hm)
    rfl rfl

/-! Lemmas for the range-chain invariant. -/

theorem chainFromTo_append (st : ResolvedStyle) (k : Nat) (hk : 0 < k) :
    ∀ (rs : List RangedStyle) (a m : Nat), chainFromTo a m rs →
      chainFromTo a (m + k)
        (rs ++ [{ style := st, range := { start := m, stop := m + k } }]) := by
  intro rs
  induction rs with
  | nil =>
    intro a m h
    have h' : a = m := h
    subst h'
    exact ⟨rfl, Nat.lt_add_of_pos_right hk, rfl⟩
  | cons r rs ih =>
    intro a m h
    have h' : r.range.start = a ∧ a < r.range.stop ∧ chainFromTo r.range.stop m rs := h
    obtain ⟨h1, h2, h3⟩ := h'
    exact ⟨h1, h2, ih _ _ h3⟩

theorem chainFromTo_le : ∀ (rs : List RangedStyle) (a m : Nat), chainFromTo a m rs → a ≤ m := by
  intro rs
  induction rs with
  | nil =>
    intro a m h
    have h' : a = m := h
    omega
  | cons r rs ih =>
    intro a m h
    have h' : r.range.start = a ∧ a < r.range.stop ∧ chainFromTo r.range.stop m rs := h
    obtain ⟨_, h2, h3⟩ := h'
    have := ih _ _ h3
    omega

theorem chainFromTo_bounds : ∀ (rs : List RangedStyle) (a m : Nat), chainFromTo a m rs →
    ∀ r ∈ rs, a ≤ r.range.start ∧ r.range.start < r.range.stop ∧ r.range.stop ≤ m := by
  intro rs
  induction rs with
  | nil =>
    intro a m _ r hr
    cases hr
  | cons q rs ih =>
    intro a m h r hr
    have h' : q.range.start = a ∧ a < q.range.stop ∧ chainFromTo q.range.stop m rs := h
    obtain ⟨h1, h2, h3⟩ := h'
    cases hr with
    | head =>
      have := chainFromTo_le rs _ _ h3
      omega
    | tail _ hr =>
      have := ih _ _ h3 r hr
      omega

theorem chainFromTo_pairwise : ∀ (rs : List RangedStyle) (a m : Nat), chainFromTo a m rs →
    rs.Pairwise (fun r r' =>
      r.range.start ≤ r'.range.start ∧ r.range.stop ≤ r'.range.start) := by
  intro rs
  induction rs with
  | nil =>
    intro a m _
    exact List.Pairwise.nil
  | cons q rs ih =>
    intro a m h
    have h' : q.range.start = a ∧ a < q.range.stop ∧ chainFromTo q.range.stop m rs := h
    obtain ⟨h1, h2, h3⟩ := h'
    refine List.Pairwise.cons ?_ (ih _ _ h3)
    intro r hr
    have hb := chainFromTo_bounds rs _ _ h3 r hr
    omega

theorem chainFromTo_cover : ∀ (rs : List RangedStyle) (a m : Nat), chainFromTo a m rs →
    ∀ n, a ≤ n → n < m → ∃ r ∈ rs, r.range.start ≤ n ∧ n < r.range.stop := by
  intro rs
  induction rs with
  | nil =>
    intro a m h n h1 h2
    have h' : a = m := h
    omega
  | cons q rs ih =>
    intro a m h n h1 h2
    have h' : q.range.start = a ∧ a < q.range.stop ∧ chainFromTo q.range.stop m rs := h
    obtain ⟨hq1, hq2, h3⟩ := h'
    by_cases hn : n < q.range.stop
    · exact ⟨q, List.mem_cons_self _ _, by omega, hn⟩
    · obtain ⟨r, hr, hr1, hr2⟩ := ih _ _ h3 n (by omega) h2
      exact ⟨r, List.mem_cons_of_mem _ hr, hr1, hr2⟩

/-- A successful flush preserves the range-chain invariant: the emitted
ranges chain from 0 to the byte length of the output text. -/
theorem push_uncomitted_text_chain (b b' : TreeStyleBuilder) (is_span_last : Bool)
    (h : b.push_uncomitted_text is_span_last = some b')
    (hi : chainFromTo 0 (utf8Len b.text) b.flatted_styles) :
    chainFromTo 0 (utf8Len b'.text) b'.flatted_styles := by
  simp only [TreeStyleBuilder.push_uncomitted_text] at h
  split at h
  · cases h
    exact hi
  · rename_i hz
    split at h
    · cases h
    · cases h
      have hk : 0 < utf8Len (TreeStyleBuilder.selectSpanText b.white_space_collapse
          b.is_span_first is_span_last b.uncomitted_text) := by omega
      show chainFromTo 0 (utf8Len (b.text ++ _)) _
      rw [utf8Len_append]
      exact chainFromTo_append _ _ hk _ _ _ hi

theorem pop_style_span_chain (b b' : TreeStyleBuilder)
    (h : b.pop_style_span = some b')
    (hi : chainFromTo 0 (utf8Len b.text) b.flatted_styles) :
    chainFromTo 0 (utf8Len b'.text) b'.flatted_styles := by
  simp only [TreeStyleBuilder.pop_style_span] at h
  split at h
  · cases h
  · rename_i b1 hf
    split at h
    · cases h
    · split at h
      · cases h
      · cases h
        exact push_uncomitted_text_chain b b1 true hf hi

theorem applyOp_chain (b b' : TreeStyleBuilder) (op : BuilderOp)
    (h : applyOp b op = some b')
    (hi : chainFromTo 0 (utf8Len b.text) b.flatted_styles) :
    chainFromTo 0 (utf8Len b'.text) b'.flatted_styles := by
  cases op with
  | SetWhiteSpaceMode m =>
    simp only [applyOp, TreeStyleBuilder.set_white_space_mode] at h
    cases h
    exact hi
  | PushStyleSpan s =>
    simp only [applyOp, TreeStyleBuilder.push_style_span] at h
    split at h
    · cases h
    · rename_i b1 hf
      cases h
      exact push_uncomitted_text_chain b b1 false hf hi
  | PushStyleModificationSpan ps =>
    simp only [applyOp, TreeStyleBuilder.push_style_modification_span] at h
    split at h
    · cases h
    · split at h
      · cases h
      · rename_i b1 hf
        cases h
        exact push_uncomitted_text_chain b b1 false hf hi
  | PopStyleSpan =>
    exact pop_style_span_chain b b' h hi
  | PushText t =>
    simp only [applyOp, TreeStyleBuilder.push_text] at h
    split at h <;> (cases h; exact hi)

theorem runOps_chain : ∀ (ops : List BuilderOp) (b b' : TreeStyleBuilder),
    runOps b ops = some b' →
    chainFromTo 0 (utf8Len b.text) b.flatted_styles →
    chainFromTo 0 (utf8Len b'.text) b'.flatted_styles := by
  intro ops
  induction ops with
  | nil =>
    intro b b' h hi
    cases h
    exact hi
  | cons op ops ih =>
    intro b b' h hi
    simp only [runOps] at h
    cases happ : applyOp b op with
    | none =>
      rw [happ] at h
      cases h
    | some b1 =>
      rw [happ] at h
      exact ih b1 b' h (applyOp_chain b b1 op happ hi)

theorem finishLoop_chain : ∀ (fuel : Nat) (b b' : TreeStyleBuilder),
    TreeStyleBuilder.finishLoop fuel b = some b' →
    chainFromTo 0 (utf8Len b.text) b.flatted_styles →
    chainFromTo 0 (utf8Len b'.text) b'.flatted_styles := by
  intro fuel
  induction fuel with
  | zero =>
    intro b b' h hi
    simp only [TreeStyleBuilder.finishLoop] at h
    split at h
    · cases h
    · split at h
      · cases h
        exact hi
      · cases h
  | succ fuel ih =>
    intro b b' h hi
    simp only [TreeStyleBuilder.finishLoop] at h
    split at h
    · cases h
    · split at h
      · cases h
        exact hi
      · split at h
        · cases h
        · rename_i b1 hpop
          exact ih b1 b' h (pop_style_span_chain b b1 hpop hi)

/-- C1: for every completed build pass, the emitted ranges are in
non-decreasing start order, pairwise non-overlapping, and their union
exactly covers the half-open interval from 0 to the byte length of the
returned text, with no gaps. -/
theorem C1_emitted_ranges (s0 : ResolvedStyle) (b0 : TreeStyleBuilder)
    (ops : List BuilderOp) (b : TreeStyleBuilder) (styles : List RangedStyle) (text : List Char)
    (hrun : runOps (b0.begin s0) ops = some b)
    (hfin : b.finish = some (styles, text)) :
    styles.Pairwise (fun r r' => r.range.start ≤ r'.range.start) ∧
      styles.Pairwise (fun r r' => r.range.stop ≤ r'.range.start) ∧
      (∀ n, n < utf8Len text ↔ ∃ r ∈ styles, r.range.start ≤ n ∧ n < r.range.stop) := by
  have hbegin : chainFromTo 0 (utf8Len (b0.begin s0).text) (b0.begin s0).flatted_styles := rfl
  have hb := runOps_chain ops _ b hrun hbegin
  simp only [TreeStyleBuilder.finish] at hfin
  split at hfin
  · cases hfin
  · rename_i b1 hloop
    split at hfin
    · cases hfin
    · rename_i b2 hflush
      cases hfin
      have hch : chainFromTo 0 (utf8Len b2.text) b2.flatted_styles :=
        push_uncomitted_text_chain b1 b2 true hflush (finishLoop_chain _ b b1 hloop hb)
      refine ⟨?_, ?_, ?_⟩
      · exact (chainFromTo_pairwise _ _ _ hch).imp (fun h => h.1)
      · exact (chainFromTo_pairwise _ _ _ hch).imp (fun h => h.2)
      · intro n
        constructor
        · intro hn
          exact chainFromTo_cover _ _ _ hch n (Nat.zero_le n) hn
        · rintro ⟨r, hr, hr1, hr2⟩
          have := chainFromTo_bounds _ _ _ hch r hr
          omega

/-- Witness for C1 at a concrete input: a nested build with two emitted
ranges. -/
theorem C1_emitted_ranges_witness :
    c1fin.1.Pairwise (fun r r' => r.range.start ≤ r'.range.start) ∧
      c1fin.1.Pairwise (fun r r' => r.range.stop ≤ r'.range.start) ∧
      (∀ n, n < utf8Len c1fin.2 ↔ ∃ r ∈ c1fin.1, r.range.start ≤ n ∧ n < r.range.stop) :=
  C1_emitted_ranges S0 defaultBuilder c1ops c1b c1fin.1 c1fin.2 rfl rfl
